import Mathlib

set_option maxHeartbeats 1000000

namespace EnvGuard

/-- An environment: a mapping from variable names to optional raw string values,
modelling `process.env` (a lookup returns `undefined`, here `none`, for an unset
name). -/
abbrev Env := String → Option String

/-- Presence test used throughout src/index.js:
`value === undefined || value === ''`. -/
def missingVal : Option String → Bool
  | none => true
  | some s => s == ""

/-- One entry of the `invalid` list of an `EnvKeeperError`
(the objects pushed in `validate`, src/index.js lines 66-110). -/
structure InvalidEntry where
  name : String
  value : String
  expected : String
  reason : String
  deriving DecidableEq, Repr

/-- The error class `EnvKeeperError` (src/index.js lines 2-9); `missing` and
`invalid` default to `[]` exactly as in the JavaScript constructor. -/
structure EnvKeeperError where
  message : String
  missing : List String := []
  invalid : List InvalidEntry := []
  deriving DecidableEq, Repr

/-- JavaScript values usable as `get`'s `defaultValue`. `num` covers integral
numbers only: `String(x)` for a non-integral double depends on IEEE float
formatting, which is out of scope of this embedding (no claim depends on it). -/
inductive JSValue where
  | null
  | str (s : String)
  | bool (b : Bool)
  | num (n : Int)
  deriving DecidableEq, Repr

/-- JavaScript `String(x)` on the modelled values. -/
def JSValue.stringify : JSValue → String
  | .null => "null"
  | .str s => s
  | .bool true => "true"
  | .bool false => "false"
  | .num n => toString n

/-- Structured validation rule (the object form of a schema entry). `pattern`
carries the source text of the regular expression together with its compiled
matcher: the regex engine belongs to the JavaScript runtime, not to this
repository, so the matcher is kept as a Boolean predicate on the value while the
source text feeds the report strings and the JS truthiness test. -/
structure RuleRecord where
  type : Option String := none
  minLength : Option Nat := none
  maxLength : Option Nat := none
  pattern : Option (String × (String → Bool)) := none
  enum : Option (List String) := none

/-- A schema entry: either a bare type-tag string or a rule object. -/
inductive RuleSpec where
  | tag (t : String)
  | record (r : RuleRecord)

/-- Rule normalization, src/index.js lines 57-60: a bare string becomes
`{ type: <string> }`. -/
def normalizeRule : RuleSpec → RuleRecord
  | .tag t => { type := some t }
  | .record r => r

/-- Result of JavaScript `Number(string)`: NaN, a signed infinity, or a finite
value. The finite value is kept as an exact rational; rounding to the nearest
IEEE double (and overflow of huge literals to infinity) is not modelled. -/
inductive JSNum where
  | nan
  | posInf
  | negInf
  | fin (q : ℚ)
  deriving DecidableEq, Repr

/-- Whitespace stripped by JavaScript string-to-number conversion (the common
ASCII whitespace characters plus NBSP and the BOM). -/
def isJsWhitespace (c : Char) : Bool :=
  c = ' ' || c = '\t' || c = '\n' || c = '\r' || c = '\x0b' || c = '\x0c' ||
    c.toNat = 0xa0 || c.toNat = 0xfeff

/-- Strip leading and trailing whitespace, as character list. -/
def jsTrim (s : String) : List Char :=
  ((s.toList.dropWhile isJsWhitespace).reverse.dropWhile isJsWhitespace).reverse

/-- Leading decimal digits of a character list, and the rest. -/
def decDigits (cs : List Char) : List Char × List Char :=
  (cs.takeWhile Char.isDigit, cs.dropWhile Char.isDigit)

/-- Value of a list of decimal digits. -/
def decValue (ds : List Char) : Nat :=
  ds.foldl (fun a c => a * 10 + (c.toNat - 48)) 0

def isHexDigitChar (c : Char) : Bool :=
  c.isDigit || ('a' ≤ c && c ≤ 'f') || ('A' ≤ c && c ≤ 'F')

def hexDigitValue (c : Char) : Nat :=
  if c.isDigit then c.toNat - 48
  else if 'a' ≤ c && c ≤ 'f' then c.toNat - 87
  else if 'A' ≤ c && c ≤ 'F' then c.toNat - 55
  else 0

def isOctDigitChar (c : Char) : Bool := '0' ≤ c && c ≤ '7'

def isBinDigitChar (c : Char) : Bool := c = '0' || c = '1'

/-- Lower-casing as in JavaScript `toLowerCase` (character-wise; ASCII exact). -/
def toLowerStr (s : String) : String := String.mk (s.toList.map Char.toLower)

/-- JavaScript `trim()`. -/
def trimString (s : String) : String :=
  String.mk (((s.toList.dropWhile isJsWhitespace).reverse.dropWhile isJsWhitespace).reverse)

/-- Parse an optional exponent part `[eE][+-]?digits` that must span the whole
remaining input; `some e` is the exponent, `none` a syntax error. -/
def parseExpSuffix : List Char → Option Int
  | [] => some 0
  | c :: rest =>
    if c = 'e' || c = 'E' then
      match rest with
      | '+' :: ds =>
        if ds ≠ [] ∧ ds.all Char.isDigit then some (Int.ofNat (decValue ds)) else none
      | '-' :: ds =>
        if ds ≠ [] ∧ ds.all Char.isDigit then some (-(Int.ofNat (decValue ds))) else none
      | ds =>
        if ds ≠ [] ∧ ds.all Char.isDigit then some (Int.ofNat (decValue ds)) else none
    else none

/-- Parse an unsigned decimal literal (`digits`, `digits.digits`, `.digits`,
with optional exponent), consuming the whole input. -/
def parseUnsignedDecimal (cs : List Char) : Option ℚ :=
  let p := decDigits cs
  match p.2 with
  | '.' :: rest2 =>
    let p2 := decDigits rest2
    if p.1 = [] ∧ p2.1 = [] then none
    else
      (parseExpSuffix p2.2).map (fun e =>
        let mant : Int := Int.ofNat (decValue p.1 * 10 ^ p2.1.length + decValue p2.1)
        if 0 ≤ e then mkRat (mant * Int.ofNat (10 ^ e.toNat)) (10 ^ p2.1.length)
        else mkRat mant (10 ^ p2.1.length * 10 ^ (-e).toNat))
  | _ =>
    if p.1 = [] then none
    else
      (parseExpSuffix p.2).map (fun e =>
        let mant : Int := Int.ofNat (decValue p.1)
        if 0 ≤ e then mkRat (mant * Int.ofNat (10 ^ e.toNat)) 1
        else mkRat mant (10 ^ (-e).toNat))

/-- Parse a non-decimal integer literal `0x… / 0o… / 0b…` (no sign allowed),
consuming the whole input. -/
def parseNonDecimal (cs : List Char) : Option ℚ :=
  match cs with
  | '0' :: c :: ds =>
    if (c = 'x' || c = 'X') && !ds.isEmpty && ds.all isHexDigitChar then
      some (mkRat (Int.ofNat (ds.foldl (fun a d => a * 16 + hexDigitValue d) 0)) 1)
    else if (c = 'o' || c = 'O') && !ds.isEmpty && ds.all isOctDigitChar then
      some (mkRat (Int.ofNat (ds.foldl (fun a d => a * 8 + (d.toNat - 48)) 0)) 1)
    else if (c = 'b' || c = 'B') && !ds.isEmpty && ds.all isBinDigitChar then
      some (mkRat (Int.ofNat (ds.foldl (fun a d => a * 2 + (d.toNat - 48)) 0)) 1)
    else none
  | _ => none

/-- JavaScript `Number(string)` (ECMAScript ToNumber on strings): trims
whitespace, maps the empty string to `0`, recognizes signed `Infinity`, signed
decimal literals and unsigned `0x`/`0o`/`0b` literals, everything else is NaN. -/
def jsToNumber (s : String) : JSNum :=
  let cs := jsTrim s
  if cs = [] then .fin 0
  else if cs = "Infinity".toList || cs = "+Infinity".toList then .posInf
  else if cs = "-Infinity".toList then .negInf
  else
    match parseNonDecimal cs with
    | some q => .fin q
    | none =>
      match cs with
      | '+' :: rest =>
        match parseUnsignedDecimal rest with
        | some q => JSNum.fin q
        | none => JSNum.nan
      | '-' :: rest =>
        match parseUnsignedDecimal rest with
        | some q => JSNum.fin (-q)
        | none => JSNum.nan
      | _ =>
        match parseUnsignedDecimal cs with
        | some q => JSNum.fin q
        | none => JSNum.nan

/-- `!isNaN(x) && isFinite(x)`. -/
def JSNum.finite : JSNum → Bool
  | .fin _ => true
  | _ => false

/-- Modelled from the spec: `value parses as a well-formed absolute URL per
standard URL syntax`. The WHATWG URL constructor used by the source lives in the
JavaScript runtime, not in this repository; it is approximated as requiring an
alphabetic-initial scheme followed by a colon. No claim depends on this tag. -/
def urlParses (value : String) : Bool :=
  match value.toList with
  | [] => false
  | c :: rest =>
    c.isAlpha &&
      (rest.takeWhile (fun d => d ≠ ':')).all
        (fun d => d.isAlphanum || d = '+' || d = '-' || d = '.') &&
      !(rest.dropWhile (fun d => d ≠ ':')).isEmpty

/-- Whitespace class `\s` of JavaScript regular expressions (common subset). -/
def isRegexSpace (c : Char) : Bool :=
  c = ' ' || c = '\t' || c = '\n' || c = '\r' || c = '\x0b' || c = '\x0c' ||
    c.toNat = 0xa0 || c.toNat = 0xfeff

/-- A character allowed in the atoms of the e-mail regex: anything but
whitespace and the at-sign. -/
def emailAtomChar (c : Char) : Bool := !isRegexSpace c && c ≠ '@'

/-- The test of the hard-coded e-mail regex of src/index.js line 219,
a direct transcription of the anchored pattern: one or more non-space non-@
characters, an @, then a part that contains a dot with at least one non-space
non-@ character on each side and no further @. -/
def emailMatches (value : String) : Bool :=
  let cs := value.toList
  let a := cs.takeWhile (fun c => c ≠ '@')
  match cs.dropWhile (fun c => c ≠ '@') with
  | '@' :: b =>
    !a.isEmpty && a.all emailAtomChar && !b.isEmpty && b.all emailAtomChar &&
      ((b.drop 1).dropLast).contains '.'
  | _ => false

/-- JSON whitespace. -/
def jsonWs (c : Char) : Bool := c = ' ' || c = '\t' || c = '\n' || c = '\r'

def skipJsonWs (cs : List Char) : List Char := cs.dropWhile jsonWs

/-- Consume the remainder of a JSON string after the opening quote; returns the
input after the closing quote. -/
def parseJsonStringRest (cs : List Char) : Option (List Char) :=
  match cs with
  | [] => none
  | c :: rest =>
    if c = '"' then some rest
    else if c = '\\' then
      match rest with
      | [] => none
      | e :: rest2 =>
        if e = '"' || e = '\\' || e = '/' || e = 'b' || e = 'f' || e = 'n' ||
            e = 'r' || e = 't' then
          parseJsonStringRest rest2
        else if e = 'u' then
          match rest2 with
          | h1 :: h2 :: h3 :: h4 :: rest3 =>
            if isHexDigitChar h1 && isHexDigitChar h2 && isHexDigitChar h3 &&
                isHexDigitChar h4 then
              parseJsonStringRest rest3
            else none
          | _ => none
        else none
    else if c.toNat < 0x20 then none
    else parseJsonStringRest rest
termination_by cs.length
decreasing_by all_goals simp_arith

/-- Consume the fraction and exponent parts of a JSON number. -/
def parseJsonFracExp (cs : List Char) : Option (List Char) :=
  let afterFrac : Option (List Char) :=
    match cs with
    | '.' :: r => if (r.takeWhile Char.isDigit) ≠ [] then some (r.dropWhile Char.isDigit) else none
    | _ => some cs
  match afterFrac with
  | none => none
  | some cs3 =>
    match cs3 with
    | c :: r =>
      if c = 'e' || c = 'E' then
        let r2 := match r with
          | '+' :: rr => rr
          | '-' :: rr => rr
          | _ => r
        if (r2.takeWhile Char.isDigit) ≠ [] then some (r2.dropWhile Char.isDigit) else none
      else some cs3
    | [] => some []

/-- Consume a JSON number. -/
def parseJsonNumber (cs : List Char) : Option (List Char) :=
  let cs1 := match cs with
    | '-' :: r => r
    | _ => cs
  match cs1 with
  | '0' :: r => parseJsonFracExp r
  | c :: r =>
    if c.isDigit then parseJsonFracExp (r.dropWhile Char.isDigit) else none
  | [] => none

mutual

/-- Consume one JSON value (fuel-driven recursion). -/
def parseJsonValue : Nat → List Char → Option (List Char)
  | 0, _ => none
  | fuel + 1, cs =>
    match skipJsonWs cs with
    | [] => none
    | '"' :: rest => parseJsonStringRest rest
    | '{' :: rest =>
      match skipJsonWs rest with
      | '}' :: r => some r
      | _ => parseJsonMembers fuel rest
    | '[' :: rest =>
      match skipJsonWs rest with
      | ']' :: r => some r
      | _ => parseJsonElements fuel rest
    | 't' :: 'r' :: 'u' :: 'e' :: r => some r
    | 'f' :: 'a' :: 'l' :: 's' :: 'e' :: r => some r
    | 'n' :: 'u' :: 'l' :: 'l' :: r => some r
    | other => parseJsonNumber other

/-- Consume one or more `"key": value` members followed by `}`. -/
def parseJsonMembers : Nat → List Char → Option (List Char)
  | 0, _ => none
  | fuel + 1, cs =>
    match skipJsonWs cs with
    | '"' :: rest =>
      match parseJsonStringRest rest with
      | none => none
      | some rest2 =>
        match skipJsonWs rest2 with
        | ':' :: rest3 =>
          match parseJsonValue fuel rest3 with
          | none => none
          | some rest4 =>
            match skipJsonWs rest4 with
            | ',' :: rest5 => parseJsonMembers fuel rest5
            | '}' :: rest5 => some rest5
            | _ => none
        | _ => none
    | _ => none

/-- Consume one or more array elements followed by `]`. -/
def parseJsonElements : Nat → List Char → Option (List Char)
  | 0, _ => none
  | fuel + 1, cs =>
    match parseJsonValue fuel cs with
    | none => none
    | some rest =>
      match skipJsonWs rest with
      | ',' :: rest2 => parseJsonElements fuel rest2
      | ']' :: rest2 => some rest2
      | _ => none

end

/-- Modelled from the spec: `value parses as syntactically valid JSON`. The
JSON parser used by the source (`JSON.parse`) lives in the JavaScript runtime,
not in this repository. No claim depends on this tag. -/
def jsonParses (value : String) : Bool :=
  let cs := value.toList
  match parseJsonValue (cs.length + 1) cs with
  | some rest => (skipJsonWs rest).isEmpty
  | none => false

/-- The private `_validateType` of src/index.js lines 199-237: a case-insensitive
switch over the type tag; unknown tags pass. -/
def validateType (value expectedType : String) : Bool :=
  let t := toLowerStr expectedType
  if t = "string" then true
  else if t = "number" then (jsToNumber value).finite
  else if t = "boolean" then ["true", "false", "1", "0"].contains (toLowerStr value)
  else if t = "url" then urlParses value
  else if t = "email" then emailMatches value
  else if t = "json" then jsonParses value
  else if t = "port" then
    match jsToNumber value with
    | .fin q => decide (q.den = 1 ∧ 0 < q ∧ q ≤ 65535)
    | _ => false
  else true

/-- Truncation used in violation reports: `value.substring(0, 10) + '...'`. -/
def truncate10 (value : String) : String := value.take 10 ++ "..."

/-- The entry pushed on a type-check failure (src/index.js lines 66-71). -/
def typeFailEntry (varName value t : String) : InvalidEntry :=
  { name := varName, value := value, expected := t,
    reason := "Expected " ++ t ++ ", got \"" ++ value ++ "\"" }

/-- The entry pushed on a `minLength` failure (src/index.js lines 78-83). -/
def minLengthEntry (varName value : String) (m : Nat) : InvalidEntry :=
  { name := varName, value := truncate10 value,
    expected := "minimum length " ++ toString m,
    reason := "Length " ++ toString value.length ++ " is less than required " ++ toString m }

/-- The entry pushed on a `maxLength` failure (src/index.js lines 87-92). -/
def maxLengthEntry (varName value : String) (m : Nat) : InvalidEntry :=
  { name := varName, value := truncate10 value,
    expected := "maximum length " ++ toString m,
    reason := "Length " ++ toString value.length ++ " exceeds maximum " ++ toString m }

/-- The entry pushed on a `pattern` failure (src/index.js lines 96-101). -/
def patternEntry (varName value pat : String) : InvalidEntry :=
  { name := varName, value := truncate10 value,
    expected := "pattern " ++ pat,
    reason := "Value does not match required pattern" }

/-- The entry pushed on an `enum` failure (src/index.js lines 105-110). -/
def enumEntry (varName value : String) (es : List String) : InvalidEntry :=
  { name := varName, value := value,
    expected := "one of: " ++ String.intercalate ", " es,
    reason := "Value must be one of: " ++ String.intercalate ", " es }

/-- The four constraint checks of src/index.js lines 77-111, run in sequence on
a present non-empty value whose type check did not fail. Each check guards on
JavaScript truthiness of its own rule field (`0` and the empty pattern string
are falsy) and appends its own entry, independently of the others. -/
def constraintInvalids (rules : RuleRecord) (varName value : String) : List InvalidEntry :=
  (match rules.minLength with
   | some m => if m ≠ 0 ∧ value.length < m then [minLengthEntry varName value m] else []
   | none => []) ++
  (match rules.maxLength with
   | some m => if m ≠ 0 ∧ value.length > m then [maxLengthEntry varName value m] else []
   | none => []) ++
  (match rules.pattern with
   | some p => if p.1 ≠ "" ∧ p.2 value = false then [patternEntry varName value p.1] else []
   | none => []) ++
  (match rules.enum with
   | some es => if es.contains value = false then [enumEntry varName value es] else []
   | none => [])

/-- The `invalid` entries contributed by one schema entry: nothing for a missing
variable; on a truthy `type` whose check fails, the single type entry (the
remaining checks are skipped, src/index.js line 72); otherwise the constraint
checks. -/
def entryInvalid (env : Env) (varName : String) (validation : RuleSpec) : List InvalidEntry :=
  match env varName with
  | none => []
  | some value =>
    if value = "" then []
    else
      match (normalizeRule validation).type with
      | some t =>
        if t ≠ "" then
          if validateType value t then constraintInvalids (normalizeRule validation) varName value
          else [typeFailEntry varName value t]
        else constraintInvalids (normalizeRule validation) varName value
      | none => constraintInvalids (normalizeRule validation) varName value

/-- One iteration of the `for … of Object.entries(schema)` loop of `validate`
(src/index.js lines 48-112), acting on the two accumulators. -/
def validateStep (env : Env) (acc : List String × List InvalidEntry)
    (p : String × RuleSpec) : List String × List InvalidEntry :=
  if missingVal (env p.1) then (acc.1 ++ [p.1], acc.2)
  else (acc.1, acc.2 ++ entryInvalid env p.1 p.2)

/-- The `missing` and `invalid` lists accumulated by `validate`'s loop. -/
def validateLists (env : Env) (schema : List (String × RuleSpec)) :
    List String × List InvalidEntry :=
  schema.foldl (validateStep env) ([], [])

/-- The composed message of a `validate` failure (src/index.js lines 114-129),
including the final `trim()`. -/
def validateMessage (missing : List String) (invalid : List InvalidEntry) : String :=
  let m1 :=
    if missing ≠ [] then "Missing environment variables: " ++ String.intercalate ", " missing
    else ""
  let m2 :=
    if invalid ≠ [] then
      (if m1 ≠ "" then m1 ++ "\n" else m1) ++ "Invalid environment variables:\n" ++
        String.join (invalid.map (fun it => "  - " ++ it.name ++ ": " ++ it.reason ++ "\n"))
    else m1
  trimString m2

/-- `EnvKeeper.validate` (src/index.js lines 40-133). -/
def validate (env : Env) (schema : List (String × RuleSpec)) : Except EnvKeeperError Bool :=
  let ml := validateLists env schema
  if ml.1 ≠ [] ∨ ml.2 ≠ [] then
    .error { message := validateMessage ml.1 ml.2, missing := ml.1, invalid := ml.2 }
  else .ok true

/-- `EnvKeeper.require` (src/index.js lines 17-33). -/
def require (env : Env) (vars : List String) : Except EnvKeeperError Bool :=
  let missing := vars.filter (fun v => missingVal (env v))
  if missing ≠ [] then
    .error { message := "Missing required environment variables: " ++
               String.intercalate ", " missing,
             missing := missing, invalid := [] }
  else .ok true

/-- The result object of `check` (src/index.js lines 175-179). -/
structure CheckResult where
  valid : Bool
  missing : List String
  set : List String
  deriving DecidableEq, Repr

/-- `EnvKeeper.check` (src/index.js lines 169-180). -/
def check (env : Env) (vars : List String) : CheckResult :=
  let missing := vars.filter (fun v => missingVal (env v))
  { valid := missing.length == 0,
    missing := missing,
    set := vars.filter (fun v => !missing.contains v) }

/-- The error thrown by `get` for a missing variable with no default
(src/index.js line 146); `missing` and `invalid` take the constructor
defaults `[]`. -/
def requiredError (varName : String) : EnvKeeperError :=
  { message := "Environment variable " ++ varName ++ " is required",
    missing := [], invalid := [] }

/-- The value `get` works with after default substitution: the environment value
if present and non-empty, else `String(defaultValue)` unless the default is the
`null` sentinel (src/index.js lines 142-149). -/
def resolvedValue (env : Env) (varName : String) (d : JSValue) : Option String :=
  if missingVal (env varName) then
    if d = JSValue.null then none else some d.stringify
  else env varName

/-- `process.env[varName] = value` (the corrective rewrite in `get`). -/
def updateEnv (env : Env) (varName value : String) : Env :=
  fun x => if x = varName then some value else env x

/-- JavaScript truthiness of the `validation` argument of `get`: an empty bare
tag string is falsy, every rule object is truthy. -/
def truthyRule : RuleSpec → Bool
  | .tag t => t ≠ ""
  | .record _ => true

/-- `EnvKeeper.get` (src/index.js lines 141-162): resolve the value, throw the
required-error when missing with no default, and when a truthy validation rule
is supplied run `validate` on the singleton schema; on its failure write the
resolved value into the environment and run `validate` again, propagating the
second error. -/
def get (env : Env) (varName : String) (defaultValue : JSValue)
    (validation : Option RuleSpec) : Except EnvKeeperError String :=
  match resolvedValue env varName defaultValue with
  | none => .error (requiredError varName)
  | some value =>
    match validation with
    | some v =>
      if truthyRule v then
        match validate env [(varName, v)] with
        | .ok _ => .ok value
        | .error _ =>
          match validate (updateEnv env varName value) [(varName, v)] with
          | .ok _ => .ok value
          | .error e => .error e
      else .ok value
    | none => .ok value

/-- `get` as called with the `defaultValue` parameter omitted: the JavaScript
default-parameter value is the `null` sentinel (src/index.js line 141). -/
def getNoDefault (env : Env) (varName : String) (validation : Option RuleSpec) :
    Except EnvKeeperError String :=
  get env varName JSValue.null validation

/-- `EnvKeeper.list` (src/index.js lines 187-193), over an entries snapshot of
the environment mapping. It returns a plain object and throws nothing. -/
def list (entries : List (String × String)) (hideValues : Bool) : List (String × String) :=
  entries.map (fun kv => (kv.1, if hideValues then "[HIDDEN]" else kv.2))

/-- Decidable equality of `Except` results, used to evaluate concrete runs. -/
instance {ε α : Type} [DecidableEq ε] [DecidableEq α] : DecidableEq (Except ε α) := fun a b =>
  match a, b with
  | .ok x, .ok y =>
    if h : x = y then isTrue (by rw [h]) else isFalse (fun hc => h (Except.ok.inj hc))
  | .error x, .error y =>
    if h : x = y then isTrue (by rw [h]) else isFalse (fun hc => h (Except.error.inj hc))
  | .ok _, .error _ => isFalse (fun hc => Except.noConfusion hc)
  | .error _, .ok _ => isFalse (fun hc => Except.noConfusion hc)

/-- The sequence of missing names of a schema, entry by entry in schema order. -/
def missingOf (env : Env) : List (String × RuleSpec) → List String
  | [] => []
  | p :: rest => (if missingVal (env p.1) then [p.1] else []) ++ missingOf env rest

/-- The sequence of invalid entries of a schema, entry by entry in schema
order. -/
def invalidOf (env : Env) : List (String × RuleSpec) → List InvalidEntry
  | [] => []
  | p :: rest => entryInvalid env p.1 p.2 ++ invalidOf env rest

/-- Two environments that agree on presence everywhere and on values at every
present name. -/
def EnvEquiv (env1 env2 : Env) : Prop :=
  ∀ x, missingVal (env1 x) = missingVal (env2 x) ∧
    (missingVal (env1 x) = false → env1 x = env2 x)

/-- The rule's type constraint, if truthy, accepts the value. -/
def typePasses (r : RuleRecord) (value : String) : Prop :=
  ∀ t, r.type = some t → t ≠ "" → validateType value t = true

/-- Spec-side transcription of the type table of claim C5: tag matched
case-insensitively, `string` always passes, `number` requires a finite numeric
conversion (NaN and the infinities rejected), `boolean` one of the four
lower-cased literals, `port` an integer between 1 and 65535 inclusive, and any
unknown tag passes unconditionally. Stated only for the tags the claim covers:
`url`, `email` and `json` are known tags of the code, not unknown ones, and the
claim does not describe them. -/
def typeTableSpec (value ty : String) : Bool :=
  let t := toLowerStr ty
  if t = "string" then true
  else if t = "number" then (jsToNumber value).finite
  else if t = "boolean" then ["true", "false", "1", "0"].contains (toLowerStr value)
  else if t = "port" then
    match jsToNumber value with
    | .fin q => decide (q.den = 1 ∧ 1 ≤ q ∧ q ≤ 65535)
    | _ => false
  else true

theorem entryInvalid_missing {env : Env} {n : String} (v : RuleSpec)
    (h : missingVal (env n) = true) : entryInvalid env n v = [] := by
  unfold entryInvalid
  cases he : env n with
  | none => rfl
  | some s =>
    have hs : s = "" := by simpa [missingVal, he] using h
    simp [hs]

theorem foldl_validateStep (env : Env) (schema : List (String × RuleSpec)) :
    ∀ acc : List String × List InvalidEntry,
      schema.foldl (validateStep env) acc =
        (acc.1 ++ missingOf env schema, acc.2 ++ invalidOf env schema) := by
  induction schema with
  | nil => intro acc; simp [missingOf, invalidOf]
  | cons p rest ih =>
    intro acc
    cases hb : missingVal (env p.1) with
    | true =>
      simp [List.foldl, validateStep, hb, ih, missingOf, invalidOf,
        entryInvalid_missing p.2 hb, List.append_assoc]
    | false =>
      simp [List.foldl, validateStep, hb, ih, missingOf, invalidOf, List.append_assoc]

theorem validateLists_eq (env : Env) (schema : List (String × RuleSpec)) :
    validateLists env schema = (missingOf env schema, invalidOf env schema) := by
  unfold validateLists
  simpa using foldl_validateStep env schema ([], [])

theorem missingOf_eq_filter (env : Env) (schema : List (String × RuleSpec)) :
    missingOf env schema = (schema.filter (fun p => missingVal (env p.1))).map Prod.fst := by
  induction schema with
  | nil => rfl
  | cons p rest ih =>
    cases hb : missingVal (env p.1) <;> simp [missingOf, hb, ih, List.filter_cons]

theorem validate_ok_iff (env : Env) (schema : List (String × RuleSpec)) :
    validate env schema = .ok true ↔
      missingOf env schema = [] ∧ invalidOf env schema = [] := by
  unfold validate
  rw [validateLists_eq]
  by_cases h1 : missingOf env schema = [] <;>
    by_cases h2 : invalidOf env schema = [] <;> simp [h1, h2]

theorem validate_error_eq {env : Env} {schema : List (String × RuleSpec)}
    {e : EnvKeeperError} (h : validate env schema = .error e) :
    e.missing = missingOf env schema ∧ e.invalid = invalidOf env schema ∧
      e.message = validateMessage (missingOf env schema) (invalidOf env schema) ∧
      (missingOf env schema ≠ [] ∨ invalidOf env schema ≠ []) := by
  unfold validate at h
  rw [validateLists_eq] at h
  by_cases hc : missingOf env schema ≠ [] ∨ invalidOf env schema ≠ []
  · rw [if_pos hc] at h
    have h' := Except.error.inj h
    subst h'
    exact ⟨rfl, rfl, rfl, hc⟩
  · rw [if_neg hc] at h
    exact Except.noConfusion h

theorem missingVal_false_iff (o : Option String) :
    missingVal o = false ↔ ∃ s, o = some s ∧ s ≠ "" := by
  cases o <;> simp [missingVal]

theorem updateEnv_self {env : Env} {n value : String} (h : env n = some value) :
    updateEnv env n value = env := by
  funext x
  unfold updateEnv
  by_cases hx : x = n
  · subst hx; rw [if_pos rfl]; exact h.symm
  · simp [hx]

theorem validate_missing_single {env : Env} {n : String} (v : RuleSpec)
    (h : missingVal (env n) = true) :
    validate env [(n, v)] =
      .error { message := validateMessage [n] [], missing := [n], invalid := [] } := by
  unfold validate
  rw [validateLists_eq]
  simp [missingOf, invalidOf, h, entryInvalid_missing v h]

theorem entryInvalid_equiv {env1 env2 : Env} (h : EnvEquiv env1 env2)
    (n : String) (v : RuleSpec) : entryInvalid env1 n v = entryInvalid env2 n v := by
  cases hb : missingVal (env1 n) with
  | true =>
    have hb2 : missingVal (env2 n) = true := by rw [← (h n).1]; exact hb
    rw [entryInvalid_missing v hb, entryInvalid_missing v hb2]
  | false =>
    unfold entryInvalid
    rw [(h n).2 hb]

theorem missingOf_equiv {env1 env2 : Env} (h : EnvEquiv env1 env2) :
    ∀ schema, missingOf env1 schema = missingOf env2 schema := by
  intro schema
  induction schema with
  | nil => rfl
  | cons p rest ih => simp [missingOf, (h p.1).1, ih]

theorem invalidOf_equiv {env1 env2 : Env} (h : EnvEquiv env1 env2) :
    ∀ schema, invalidOf env1 schema = invalidOf env2 schema := by
  intro schema
  induction schema with
  | nil => rfl
  | cons p rest ih => simp [invalidOf, entryInvalid_equiv h p.1 p.2, ih]

theorem validate_equiv {env1 env2 : Env} (h : EnvEquiv env1 env2)
    (schema : List (String × RuleSpec)) : validate env1 schema = validate env2 schema := by
  unfold validate
  rw [validateLists_eq, validateLists_eq, missingOf_equiv h, invalidOf_equiv h]

theorem require_equiv {env1 env2 : Env} (h : EnvEquiv env1 env2)
    (vars : List String) : require env1 vars = require env2 vars := by
  unfold require
  rw [List.filter_congr (fun v _ => (h v).1)]

theorem check_equiv {env1 env2 : Env} (h : EnvEquiv env1 env2)
    (vars : List String) : check env1 vars = check env2 vars := by
  unfold check
  rw [List.filter_congr (fun v _ => (h v).1)]

theorem resolvedValue_equiv {env1 env2 : Env} (h : EnvEquiv env1 env2)
    (n : String) (d : JSValue) : resolvedValue env1 n d = resolvedValue env2 n d := by
  unfold resolvedValue
  cases hb : missingVal (env1 n) with
  | true =>
    have hb2 : missingVal (env2 n) = true := by rw [← (h n).1]; exact hb
    simp [hb2]
  | false =>
    have hb2 : missingVal (env2 n) = false := by rw [← (h n).1]; exact hb
    rw [hb2]
    simp [(h n).2 hb]

theorem updateEnv_equiv {env1 env2 : Env} (h : EnvEquiv env1 env2)
    (n value : String) : EnvEquiv (updateEnv env1 n value) (updateEnv env2 n value) := by
  intro x
  unfold updateEnv
  by_cases hx : x = n
  · simp [hx]
  · simp only [if_neg hx]
    exact h x

theorem get_equiv {env1 env2 : Env} (h : EnvEquiv env1 env2) (n : String)
    (d : JSValue) (r : Option RuleSpec) : get env1 n d r = get env2 n d r := by
  unfold get
  rw [resolvedValue_equiv h n d]
  cases resolvedValue env2 n d with
  | none => rfl
  | some value =>
    cases r with
    | none => rfl
    | some v =>
      cases ht : truthyRule v with
      | false => simp [ht]
      | true =>
        simp only [ht, if_true]
        rw [validate_equiv h [(n, v)], validate_equiv (updateEnv_equiv h n value) [(n, v)]]

theorem constraintInvalids_name {r : RuleRecord} {n value : String}
    {it : InvalidEntry} (hit : it ∈ constraintInvalids r n value) : it.name = n := by
  unfold constraintInvalids at hit
  simp only [List.mem_append] at hit
  rcases hit with (((h | h) | h) | h) <;>
    (split at h <;>
      first
        | exact absurd h (List.not_mem_nil it)
        | (split at h <;>
            first
              | exact absurd h (List.not_mem_nil it)
              | (simp only [List.mem_singleton] at h; subst h; rfl)))

theorem entryInvalid_name {env : Env} {n : String} {v : RuleSpec} {it : InvalidEntry}
    (hit : it ∈ entryInvalid env n v) : it.name = n := by
  unfold entryInvalid at hit
  split at hit
  · exact absurd hit (List.not_mem_nil it)
  · split at hit
    · exact absurd hit (List.not_mem_nil it)
    · split at hit
      · split at hit
        · split at hit
          · exact constraintInvalids_name hit
          · simp only [List.mem_singleton] at hit; subst hit; rfl
        · exact constraintInvalids_name hit
      · exact constraintInvalids_name hit

theorem entryInvalid_present {env : Env} {n value : String} (r : RuleRecord)
    (h : env n = some value) (hv : value ≠ "") (hty : typePasses r value) :
    entryInvalid env n (RuleSpec.record r) = constraintInvalids r n value := by
  unfold entryInvalid
  rw [h]
  simp only [normalizeRule]
  rw [if_neg hv]
  cases htype : r.type with
  | none => rfl
  | some t =>
    by_cases ht : t = ""
    · simp [ht]
    · simp [ht, hty t htype ht]

theorem entryInvalid_typeFail {env : Env} {n value t : String} (r : RuleRecord)
    (h : env n = some value) (hv : value ≠ "") (htype : r.type = some t) (ht : t ≠ "")
    (hfail : validateType value t = false) :
    entryInvalid env n (RuleSpec.record r) = [typeFailEntry n value t] := by
  unfold entryInvalid
  rw [h]
  simp only [normalizeRule]
  rw [if_neg hv, htype]
  simp [ht, hfail]

theorem invalidOf_append (env : Env) (l1 l2 : List (String × RuleSpec)) :
    invalidOf env (l1 ++ l2) = invalidOf env l1 ++ invalidOf env l2 := by
  induction l1 with
  | nil => simp [invalidOf]
  | cons p rest ih => simp [invalidOf, ih]

theorem require_ok_iff (env : Env) (vars : List String) :
    require env vars = .ok true ↔ vars.filter (fun v => missingVal (env v)) = [] := by
  simp only [require]
  by_cases h : vars.filter (fun v => missingVal (env v)) = [] <;> simp [h]

theorem den_one_pos_iff_one_le {q : ℚ} (h : q.den = 1) : 0 < q ↔ 1 ≤ q := by
  have hq : ((q.num : ℚ)) = q := by
    conv_rhs => rw [← Rat.num_div_den q]
    rw [h]
    simp
  rw [← hq]
  constructor
  · intro h0
    have h1 : 0 < q.num := by exact_mod_cast h0
    have h2 : (1 : ℤ) ≤ q.num := h1
    exact_mod_cast h2
  · intro h1
    have h2 : (1 : ℤ) ≤ q.num := by exact_mod_cast h1
    have h3 : 0 < q.num := by omega
    exact_mod_cast h3

/-- C6: for every sequence of names, `require(names)` returns true iff every
name maps to a non-empty string in the environment; otherwise it fails with a
`ValidationError` whose `missing` sequence is exactly the absent-or-empty names
in input order, whose `invalid` is empty, and whose message is
"Missing required environment variables: " followed by the comma-joined missing
names; in particular `require([])` always returns true. -/
theorem require_spec (env : Env) (vars : List String) :
    (require env vars = .ok true ↔ ∀ v ∈ vars, ∃ s, env v = some s ∧ s ≠ "") ∧
    (∀ e, require env vars = .error e →
      e.missing = vars.filter (fun v => missingVal (env v)) ∧ e.missing ≠ [] ∧
      e.invalid = [] ∧
      e.message = "Missing required environment variables: " ++
        String.intercalate ", " e.missing) ∧
    require env [] = .ok true := by
  refine ⟨?_, ?_, by simp [require]⟩
  · rw [require_ok_iff, List.filter_eq_nil_iff]
    constructor
    · intro h v hv
      have hm : missingVal (env v) = false := by
        cases hb : missingVal (env v) with
        | false => rfl
        | true => exact absurd hb (h v hv)
      exact (missingVal_false_iff (env v)).mp hm
    · intro h v hv
      have hm : missingVal (env v) = false := (missingVal_false_iff (env v)).mpr (h v hv)
      simp [hm]
  · intro e he
    simp only [require] at he
    by_cases hne : vars.filter (fun v => missingVal (env v)) ≠ []
    · rw [if_pos hne] at he
      have h' := Except.error.inj he
      subst h'
      exact ⟨rfl, hne, rfl, rfl⟩
    · rw [if_neg hne] at he
      exact Except.noConfusion he

/-- Witness for C6: `require` at a concrete environment with two missing names
raises an error with `missing` equal to exactly those names. -/
theorem require_spec_instance :
    ({ message := "Missing required environment variables: A, C",
       missing := ["A", "C"], invalid := [] } : EnvKeeperError).missing ≠ [] := by
  have h := (require_spec (fun x => if x = "B" then some "b" else none) ["A", "B", "C"]).2.1
    { message := "Missing required environment variables: A, C",
      missing := ["A", "C"], invalid := [] } (by decide)
  exact h.2.1

/-- C8: `check(names)` never throws (it is a total function into
`CheckResult`); `valid` is true iff `missing` is empty; `missing` is the
subsequence of names that are absent or empty (the same rule as `require`);
`set` is the subsequence of names that are present and non-empty; the two are
disjoint, each is an order-preserving subsequence of the input, and together
they form a permutation of the input names. -/
theorem check_spec (env : Env) (vars : List String) :
    ((check env vars).valid = true ↔ (check env vars).missing = []) ∧
    (check env vars).missing = vars.filter (fun v => missingVal (env v)) ∧
    (check env vars).set = vars.filter (fun v => !missingVal (env v)) ∧
    (∀ v ∈ (check env vars).set, v ∉ (check env vars).missing) ∧
    List.Sublist (check env vars).missing vars ∧
    List.Sublist (check env vars).set vars ∧
    List.Perm ((check env vars).missing ++ (check env vars).set) vars := by
  have hmiss : (check env vars).missing = vars.filter (fun v => missingVal (env v)) := rfl
  have hset : (check env vars).set = vars.filter (fun v => !missingVal (env v)) := by
    show vars.filter (fun v => !(vars.filter (fun w => missingVal (env w))).contains v) = _
    apply List.filter_congr
    intro v hv
    have hcv : (vars.filter (fun w => missingVal (env w))).contains v = missingVal (env v) := by
      cases hb : missingVal (env v) with
      | true => exact List.elem_iff.mpr (List.mem_filter.mpr ⟨hv, hb⟩)
      | false =>
        cases hc : (vars.filter (fun w => missingVal (env w))).contains v with
        | false => rfl
        | true =>
          have hmem := (List.mem_filter.mp (List.elem_iff.mp hc)).2
          rw [hb] at hmem
          exact Bool.noConfusion hmem
    rw [hcv]
  refine ⟨?_, hmiss, hset, ?_, ?_, ?_, ?_⟩
  · show ((vars.filter (fun v => missingVal (env v))).length == 0) = true ↔ _
    rw [hmiss]
    simp [List.length_eq_zero]
  · intro v hvset hvmiss
    rw [hset] at hvset
    rw [hmiss] at hvmiss
    have h1 := (List.mem_filter.mp hvset).2
    have h2 := (List.mem_filter.mp hvmiss).2
    rw [h2] at h1
    exact Bool.noConfusion h1
  · rw [hmiss]; exact List.filter_sublist vars
  · rw [hset]; exact List.filter_sublist vars
  · rw [hmiss, hset]
    exact List.filter_append_perm (fun v => missingVal (env v)) vars

/-- Witness for C8: the partition facts at a concrete environment. -/
theorem check_spec_instance :
    ("B" ∈ (check (fun x => if x = "B" then some "b" else none) ["A", "B"]).set →
      "B" ∉ (check (fun x => if x = "B" then some "b" else none) ["A", "B"]).missing) :=
  (check_spec (fun x => if x = "B" then some "b" else none) ["A", "B"]).2.2.2.1 "B"

/-- C1: `validate` raises a single aggregated error exactly when at least one
schema entry is missing or invalid after all entries have been processed, and
returns true when both sequences are empty; the error carries the complete
missing and invalid sequences in schema iteration order. Processing one
variable never short-circuits the others: for a schema `{A: rule, B: rule}`
with `A` missing and `B` present but invalid, the one raised error contains `A`
in `missing` and `B` in `invalid`. -/
theorem validate_aggregates (env : Env) (schema : List (String × RuleSpec)) :
    (validate env schema = .ok true ↔
      missingOf env schema = [] ∧ invalidOf env schema = []) ∧
    (∀ e, validate env schema = .error e →
      e.missing = (schema.filter (fun p => missingVal (env p.1))).map Prod.fst ∧
      e.invalid = invalidOf env schema) ∧
    (∀ A B rA rB, missingVal (env A) = true → missingVal (env B) = false →
      entryInvalid env B rB ≠ [] →
      ∃ e, validate env [(A, rA), (B, rB)] = .error e ∧
        A ∈ e.missing ∧ B ∈ e.invalid.map InvalidEntry.name) := by
  refine ⟨validate_ok_iff env schema, ?_, ?_⟩
  · intro e he
    obtain ⟨h1, h2, _, _⟩ := validate_error_eq he
    exact ⟨by rw [h1, missingOf_eq_filter], h2⟩
  · intro A B rA rB hA hB hinv
    have hm : missingOf env [(A, rA), (B, rB)] = [A] := by
      simp [missingOf, hA, hB]
    have hi : invalidOf env [(A, rA), (B, rB)] = entryInvalid env B rB := by
      simp [invalidOf, entryInvalid_missing rA hA]
    refine ⟨{ message := validateMessage [A] (entryInvalid env B rB),
              missing := [A], invalid := entryInvalid env B rB }, ?_, ?_, ?_⟩
    · unfold validate
      rw [validateLists_eq, hm, hi]
      rw [if_pos (Or.inl (by simp))]
    · simp
    · show B ∈ (entryInvalid env B rB).map InvalidEntry.name
      cases hcase : entryInvalid env B rB with
      | nil => exact absurd hcase hinv
      | cons it rest =>
        have hmem : it ∈ entryInvalid env B rB := by
          rw [hcase]; exact List.mem_cons_self it rest
        have hname : it.name = B := entryInvalid_name hmem
        rw [← hname]
        exact List.mem_map_of_mem InvalidEntry.name (List.mem_cons_self it rest)

/-- Witness for C1: the no-short-circuit conjunct at a concrete environment
with `A` missing and `B` bound to "abc" under a `number` rule. -/
theorem validate_aggregates_instance :
    ∃ e, validate (fun x => if x = "B" then some "abc" else none)
        [("A", RuleSpec.tag "number"), ("B", RuleSpec.tag "number")] = .error e ∧
      "A" ∈ e.missing ∧ "B" ∈ e.invalid.map InvalidEntry.name :=
  (validate_aggregates (fun x => if x = "B" then some "abc" else none)
      [("A", RuleSpec.tag "number"), ("B", RuleSpec.tag "number")]).2.2
    "A" "B" (RuleSpec.tag "number") (RuleSpec.tag "number")
    (by decide) (by decide) (by decide)

/-- C4 counterexample: with `B` present as "x" (length 1) and the rule
`{maxLength: 0}`, the maxLength constraint is present in the rule and the value
violates it, yet `validate` reports no problem at all: the JavaScript
truthiness guard `rules.maxLength && …` skips a zero bound, so no invalid
entry is appended for it. -/
theorem maxLength_zero_skipped :
    (fun x => if x = "B" then some "x" else none : Env) "B" = some "x" ∧
    "x".length > 0 ∧
    validate (fun x => if x = "B" then some "x" else none)
      [("B", RuleSpec.record { maxLength := some 0 })] = .ok true :=
  ⟨by decide, by decide, by decide⟩

/-- C4 (amended): for a present non-empty variable, when the rule's type is
absent, empty, or passes, the four constraints are evaluated independently in
the order minLength, maxLength, pattern, enum — each one that is present with a
truthy value (a non-zero length bound, a non-empty pattern source; an enum list
is always truthy) and fails appends exactly its own entry, and each segment
depends only on its own rule field; a constraint present with a falsy value
(zero length bound, empty pattern) is skipped. When a truthy type fails, that
variable contributes exactly the single type entry and its constraint checks
are skipped. In both cases the schema entries before and after are still
processed and contribute their own results. -/
theorem constraint_independence (env : Env) (pre post : List (String × RuleSpec))
    (name value : String) (r : RuleRecord)
    (h : env name = some value) (hv : value ≠ "") :
    (typePasses r value →
      invalidOf env (pre ++ (name, RuleSpec.record r) :: post) =
        invalidOf env pre ++
          ((match r.minLength with
            | some m => if m ≠ 0 ∧ value.length < m then [minLengthEntry name value m] else []
            | none => []) ++
           (match r.maxLength with
            | some m => if m ≠ 0 ∧ value.length > m then [maxLengthEntry name value m] else []
            | none => []) ++
           (match r.pattern with
            | some p => if p.1 ≠ "" ∧ p.2 value = false then [patternEntry name value p.1] else []
            | none => []) ++
           (match r.enum with
            | some es => if es.contains value = false then [enumEntry name value es] else []
            | none => [])) ++
          invalidOf env post) ∧
    (∀ t, r.type = some t → t ≠ "" → validateType value t = false →
      invalidOf env (pre ++ (name, RuleSpec.record r) :: post) =
        invalidOf env pre ++ [typeFailEntry name value t] ++ invalidOf env post) := by
  constructor
  · intro hty
    rw [invalidOf_append]
    show invalidOf env pre ++
        (entryInvalid env name (RuleSpec.record r) ++ invalidOf env post) = _
    rw [entryInvalid_present r h hv hty]
    simp [constraintInvalids, List.append_assoc]
  · intro t htype ht hfail
    rw [invalidOf_append]
    show invalidOf env pre ++
        (entryInvalid env name (RuleSpec.record r) ++ invalidOf env post) = _
    rw [entryInvalid_typeFail r h hv htype ht hfail]
    simp [List.append_assoc]

/-- Witness for C4 (amended): a concrete schema where the middle entry fails
`minLength` while the entries around it are still processed. -/
theorem constraint_independence_instance :
    invalidOf (fun x => if x = "B" then some "x" else none)
        [("A", RuleSpec.tag "number"), ("B", RuleSpec.record { minLength := some 5 }),
         ("C", RuleSpec.tag "boolean")] =
      invalidOf (fun x => if x = "B" then some "x" else none)
          [("A", RuleSpec.tag "number")] ++
        [minLengthEntry "B" "x" 5] ++
        invalidOf (fun x => if x = "B" then some "x" else none)
          [("C", RuleSpec.tag "boolean")] := by
  have h := (constraint_independence (fun x => if x = "B" then some "x" else none)
      [("A", RuleSpec.tag "number")] [("C", RuleSpec.tag "boolean")] "B" "x"
      { minLength := some 5 } (by decide) (by decide)).1
    (fun t ht _ => Option.noConfusion ht)
  exact h.trans (by decide)

/-- C9: every invalid entry produced by a minLength, maxLength or pattern
failure records the value truncated to its first 10 characters with a trailing
"..." marker, while entries produced by enum failures and by type failures
record the full untruncated value. -/
theorem invalid_value_truncation (env : Env) (name value : String) (r : RuleRecord)
    (h : env name = some value) (hv : value ≠ "") :
    (∀ m, typePasses r value → r.minLength = some m → m ≠ 0 → value.length < m →
      minLengthEntry name value m ∈ entryInvalid env name (RuleSpec.record r) ∧
      (minLengthEntry name value m).value = value.take 10 ++ "...") ∧
    (∀ m, typePasses r value → r.maxLength = some m → m ≠ 0 → value.length > m →
      maxLengthEntry name value m ∈ entryInvalid env name (RuleSpec.record r) ∧
      (maxLengthEntry name value m).value = value.take 10 ++ "...") ∧
    (∀ p, typePasses r value → r.pattern = some p → p.1 ≠ "" → p.2 value = false →
      patternEntry name value p.1 ∈ entryInvalid env name (RuleSpec.record r) ∧
      (patternEntry name value p.1).value = value.take 10 ++ "...") ∧
    (∀ es, typePasses r value → r.enum = some es → es.contains value = false →
      enumEntry name value es ∈ entryInvalid env name (RuleSpec.record r) ∧
      (enumEntry name value es).value = value) ∧
    (∀ t, r.type = some t → t ≠ "" → validateType value t = false →
      entryInvalid env name (RuleSpec.record r) = [typeFailEntry name value t] ∧
      (typeFailEntry name value t).value = value) := by
  refine ⟨?_, ?_, ?_, ?_, ?_⟩
  · intro m hty hml hm0 hlt
    rw [entryInvalid_present r h hv hty]
    exact ⟨by simp [constraintInvalids, hml, hm0, hlt], rfl⟩
  · intro m hty hml hm0 hgt
    rw [entryInvalid_present r h hv hty]
    exact ⟨by simp [constraintInvalids, hml, hm0, hgt], rfl⟩
  · intro p hty hpat hp1 hp2
    rw [entryInvalid_present r h hv hty]
    exact ⟨by simp [constraintInvalids, hpat, hp1, hp2], rfl⟩
  · intro es hty henum hc
    have hc' : value ∉ es := by
      intro hmem
      have hce : es.contains value = true := List.elem_iff.mpr hmem
      rw [hce] at hc
      exact Bool.noConfusion hc
    rw [entryInvalid_present r h hv hty]
    exact ⟨by simp [constraintInvalids, henum, hc'], rfl⟩
  · intro t htype ht hfail
    exact ⟨entryInvalid_typeFail r h hv htype ht hfail, rfl⟩

/-- Witness for C9: the scenario of the spec, `API_KEY = "123"` against
`{type: string, minLength: 10}`: the minLength entry appears with the
truncated-value field. -/
theorem invalid_value_truncation_instance :
    minLengthEntry "API_KEY" "123" 10 ∈
      entryInvalid (fun x => if x = "API_KEY" then some "123" else none) "API_KEY"
        (RuleSpec.record { type := some "string", minLength := some 10 }) ∧
    (minLengthEntry "API_KEY" "123" 10).value = "123".take 10 ++ "..." := by
  have h := (invalid_value_truncation (fun x => if x = "API_KEY" then some "123" else none)
      "API_KEY" "123" { type := some "string", minLength := some 10 }
      (by decide) (by decide)).1 10
    (by intro t ht _; injection ht with ht2; subst ht2; decide)
    rfl (by decide) (by decide)
  exact h

/-- C5: the type check used by `validate` conforms to the claim's type table
with the type tag matched case-insensitively — `string` always passes,
`number` passes iff the string converts to a finite numeric value, `boolean`
passes iff the lower-cased value is one of true/false/1/0, `port` passes iff
the value converts to an integer between 1 and 65535 inclusive, and any
unknown tag passes unconditionally — including the claim's concrete port
examples. -/
theorem type_check_table (value ty : String)
    (h : toLowerStr ty ≠ "url" ∧ toLowerStr ty ≠ "email" ∧ toLowerStr ty ≠ "json") :
    validateType value ty = typeTableSpec value ty ∧
    validateType "1" "port" = true ∧ validateType "65535" "port" = true ∧
    validateType "0" "port" = false ∧ validateType "65536" "port" = false ∧
    validateType "-5" "port" = false ∧ validateType "abc" "port" = false := by
  refine ⟨?_, by decide, by decide, by decide, by decide, by decide, by decide⟩
  obtain ⟨h1, h2, h3⟩ := h
  unfold validateType typeTableSpec
  by_cases hs : toLowerStr ty = "string"
  · simp [hs]
  · by_cases hn : toLowerStr ty = "number"
    · simp [hs, hn]
    · by_cases hb : toLowerStr ty = "boolean"
      · simp [hs, hn, hb]
      · by_cases hp : toLowerStr ty = "port"
        · cases hj : jsToNumber value with
          | fin q =>
            by_cases hd : q.den = 1
            · simp [hs, hn, hb, hp, h1, h2, h3, hj, hd, den_one_pos_iff_one_le hd]
            · simp [hs, hn, hb, hp, h1, h2, h3, hj, hd]
          | nan => simp [hs, hn, hb, hp, h1, h2, h3, hj]
          | posInf => simp [hs, hn, hb, hp, h1, h2, h3, hj]
          | negInf => simp [hs, hn, hb, hp, h1, h2, h3, hj]
        · simp [hs, hn, hb, hp, h1, h2, h3]

/-- Witness for C5 at the tag `number`. -/
theorem type_check_table_instance :
    validateType "42" "number" = typeTableSpec "42" "number" :=
  (type_check_table "42" "number" (by decide)).1

/-- C2: `get(name, defaultValue, validation)` fails with the message
"Environment variable name is required" (an error with empty missing/invalid
sequences) when the variable is absent or empty and no default is supplied;
when a default is supplied the resolved value is the stringified default; and
when a truthy validation rule is supplied, `get` fails exactly when `validate`
on the singleton schema rejects the environment carrying the resolved value
(so defaults are validated identically to real values), returning the resolved
string on success; with no (or a falsy) rule it returns the resolved string. -/
theorem get_contract (env : Env) (name : String) (d : JSValue) (r : Option RuleSpec) :
    (missingVal (env name) = true → d = JSValue.null →
      get env name d r =
        .error { message := "Environment variable " ++ name ++ " is required",
                 missing := [], invalid := [] }) ∧
    (missingVal (env name) = true → d ≠ JSValue.null →
      resolvedValue env name d = some d.stringify) ∧
    (∀ value, resolvedValue env name d = some value →
      ((r = none ∨ ∃ v, r = some v ∧ truthyRule v = false) → get env name d r = .ok value) ∧
      (∀ v, r = some v → truthyRule v = true →
        get env name d r =
          (validate (updateEnv env name value) [(name, v)]).map (fun _ => value))) := by
  refine ⟨?_, ?_, ?_⟩
  · intro hm hd
    unfold get resolvedValue
    simp [hm, hd, requiredError]
  · intro hm hd
    unfold resolvedValue
    simp [hm, hd]
  · intro value hval
    constructor
    · intro hr
      unfold get
      rw [hval]
      rcases hr with hr | ⟨v, hv, ht⟩
      · rw [hr]
      · rw [hv]; simp [ht]
    · intro v hv ht
      subst hv
      unfold get
      rw [hval]
      simp only [ht, if_true]
      cases hb : missingVal (env name) with
      | true =>
        rw [validate_missing_single v hb]
        cases h2 : validate (updateEnv env name value) [(name, v)] with
        | ok b => simp [Except.map]
        | error e => simp [Except.map]
      | false =>
        have hv2 : env name = some value := by
          unfold resolvedValue at hval
          simpa [hb] using hval
        rw [updateEnv_self hv2]
        cases h1 : validate env [(name, v)] with
        | ok b => simp [Except.map]
        | error e => simp [Except.map]

/-- Witness for C2: a missing variable with a string default and no rule
resolves to the default. -/
theorem get_contract_instance :
    get (fun _ => none) "X" (JSValue.str "fallback") none = .ok "fallback" :=
  (((get_contract (fun _ => none) "X" (JSValue.str "fallback") none).2.2
      "fallback" (by decide)).1 (Or.inl rfl))

/-- C3 counterexample: `get` on a missing variable with no default raises a
`ValidationError` whose `missing` and `invalid` sequences are both empty (the
constructor defaults), so not every error raised by the five operations has one
of them non-empty. -/
theorem get_required_error_fields :
    get (fun _ => none) "X" JSValue.null none =
      .error { message := "Environment variable X is required",
               missing := [], invalid := [] } := by decide

/-- C3 (amended): every `ValidationError` raised by `require` has a non-empty
`missing`; every one raised by `validate` has `missing` or `invalid` non-empty;
`check` and `list` raise nothing (they are total functions into plain result
values); and every error raised by `get` has a non-empty sequence except the
missing-with-no-default error, which carries both sequences empty. -/
theorem error_fields_nonempty (env : Env) :
    (∀ vars e, require env vars = .error e → e.missing ≠ []) ∧
    (∀ schema e, validate env schema = .error e → e.missing ≠ [] ∨ e.invalid ≠ []) ∧
    (∀ name d r e, get env name d r = .error e →
      e.missing ≠ [] ∨ e.invalid ≠ [] ∨ e = requiredError name) := by
  refine ⟨?_, ?_, ?_⟩
  · intro vars e he
    simp only [require] at he
    by_cases hne : vars.filter (fun v => missingVal (env v)) ≠ []
    · rw [if_pos hne] at he
      have h' := Except.error.inj he
      subst h'
      exact hne
    · rw [if_neg hne] at he
      exact Except.noConfusion he
  · intro schema e he
    obtain ⟨h1, h2, _, h4⟩ := validate_error_eq he
    rw [h1, h2]
    exact h4
  · intro n d r e he
    unfold get at he
    cases hres : resolvedValue env n d with
    | none =>
      rw [hres] at he
      have h' := Except.error.inj he
      exact Or.inr (Or.inr h'.symm)
    | some value =>
      rw [hres] at he
      cases r with
      | none => exact Except.noConfusion he
      | some v =>
        cases ht : truthyRule v with
        | false =>
          simp [ht] at he
        | true =>
          simp only [ht, if_true] at he
          cases h1 : validate env [(n, v)] with
          | ok b =>
            rw [h1] at he
            exact Except.noConfusion he
          | error e1 =>
            rw [h1] at he
            cases h2 : validate (updateEnv env n value) [(n, v)] with
            | ok b =>
              rw [h2] at he
              exact Except.noConfusion he
            | error e2 =>
              rw [h2] at he
              have h3 := Except.error.inj he
              subst h3
              obtain ⟨hm, hi, _, hne⟩ := validate_error_eq h2
              rw [hm, hi]
              rcases hne with hx | hx
              · exact Or.inl hx
              · exact Or.inr (Or.inl hx)

/-- Witness for C3 (amended): the error raised by `require` on a concrete
missing name has a non-empty `missing`. -/
theorem error_fields_nonempty_instance :
    ({ message := "Missing required environment variables: A",
       missing := ["A"], invalid := [] } : EnvKeeperError).missing ≠ [] :=
  (error_fields_nonempty (fun _ => none)).1 ["A"]
    { message := "Missing required environment variables: A",
      missing := ["A"], invalid := [] } (by decide)

/-- C7: for every variable name, an environment binding it to the empty string
and an environment omitting it (all other bindings equal) produce exactly the
same result — return value or error — on every call to `require`, `validate`,
`check`, and `get`. -/
theorem empty_equiv_absent (env1 env2 : Env) (v : String)
    (h1 : env1 v = some "") (h2 : env2 v = none)
    (hrest : ∀ x, x ≠ v → env1 x = env2 x) :
    (∀ vars, require env1 vars = require env2 vars) ∧
    (∀ schema, validate env1 schema = validate env2 schema) ∧
    (∀ vars, check env1 vars = check env2 vars) ∧
    (∀ name d r, get env1 name d r = get env2 name d r) := by
  have hequiv : EnvEquiv env1 env2 := by
    intro x
    by_cases hx : x = v
    · subst hx
      rw [h1, h2]
      exact ⟨rfl, fun hc => Bool.noConfusion hc⟩
    · rw [hrest x hx]
      exact ⟨rfl, fun _ => rfl⟩
  exact ⟨require_equiv hequiv, validate_equiv hequiv, check_equiv hequiv,
    fun name d r => get_equiv hequiv name d r⟩

/-- Witness for C7: the empty-string and absent environments for `V` agree on a
concrete `check` call. -/
theorem empty_equiv_absent_instance :
    check (fun x => if x = "V" then some "" else none) ["V"] =
      check (fun _ => none) ["V"] :=
  (empty_equiv_absent (fun x => if x = "V" then some "" else none) (fun _ => none) "V"
      (by decide) rfl (fun x hx => by simp [hx])).2.2.1 ["V"]

/-- C10: passing `null` explicitly as `get`'s default behaves identically to
omitting the default (the JavaScript default parameter is the same `null`
sentinel), so for every absent-or-empty variable `get(name, null)` and
`get(name, null, rule)` fail with the required-variable `ValidationError`:
`null` can never serve as an actual default value. -/
theorem null_default_sentinel (env : Env) (name : String) (r : Option RuleSpec) :
    getNoDefault env name r = get env name JSValue.null r ∧
    (missingVal (env name) = true →
      get env name JSValue.null r = .error (requiredError name)) := by
  refine ⟨rfl, ?_⟩
  intro hm
  unfold get resolvedValue
  simp [hm]

/-- Witness for C10: with `X` absent, `get` with an explicit `null` default and
a rule still raises the required-variable error. -/
theorem null_default_sentinel_instance :
    get (fun _ => none) "X" JSValue.null (some (RuleSpec.tag "number")) =
      .error (requiredError "X") :=
  (null_default_sentinel (fun _ => none) "X" (some (RuleSpec.tag "number"))).2 (by decide)

end EnvGuard
